import Mathlib

/-!
Verification of the vCard Menu Helper (menu-helper.ts / menu-helper.js).

The development shallowly embeds the icon-resolution and vCard-flattening
pipeline of the source.  JavaScript values that may be `undefined` are
modelled as `Option`; JavaScript truthiness of strings (empty string and
`undefined` are falsy) is modelled by `truthyS`, and the short-circuit
operators `a || b` and `a && b` on such values by `jsOr` / `jsAnd`.

Platform capabilities used by the source (XMLHttpRequest, DOMParser with
XMLSerializer, btoa together with the encode/decode URI normalization,
canvas rasterization, Math.random based color choice) are injected through
a `Platform` record; the core logic translated from the source is quantified
over the platform.  A synchronous exception of the JavaScript runtime is
modelled with `Except JsError`.
-/

/-- JavaScript truthiness for a possibly-undefined string:
`undefined` and the empty string are falsy. -/
def truthyS : Option String → Bool
  | none => false
  | some s => s ≠ ""

/-- JavaScript `a || b` on possibly-undefined strings. -/
def jsOr (a b : Option String) : Option String :=
  if truthyS a then a else b

/-- JavaScript `a && c` where `c` is a string literal: returns the falsy
left value unchanged, otherwise the literal. -/
def jsAnd (a : Option String) (c : String) : Option String :=
  if truthyS a then some c else a

/-- JavaScript `a || d` where the default `d` is a plain string. -/
def jsStrOr (a : Option String) (d : String) : String :=
  match a with
  | none => d
  | some s => if s = "" then d else s

/-- JavaScript `a || d` on numbers: `undefined` and `0` are falsy. -/
def jsIntOr (a : Option Int) (d : Int) : Int :=
  match a with
  | none => d
  | some v => if v = 0 then d else v

/-- The recolor pair extracted from an icon reference (fields may be
`undefined` when the split has fewer positional parts). -/
structure SvgColors where
  iconColor : Option String
  bgColor : Option String
deriving DecidableEq, Repr

/-- The uniform image descriptor built per node by `updateMenuItems`.
`type` is the raw JavaScript value of the truthiness chain, hence a
possibly-undefined (or even empty) string rather than a clean enum. -/
structure ImageInfo where
  type : Option String
  source : Option String
  svgColors : Option SvgColors
deriving DecidableEq, Repr

/-- Entry of the IMAGE_DATA_INFO map. -/
structure ImageDataInfo where
  base64Data : String
  mimeType : String
deriving DecidableEq, Repr

/-- Result of the XMLHttpRequest performed by `getImageFromUrl`. -/
structure FetchResponse where
  status : Nat
  body : String
deriving DecidableEq, Repr

/-- The `InitialParameters` object of the source; every field optional. -/
structure InitialParameters where
  iconsSize : Option Int := none
  iconsColor : Option String := none
  iconsBgColor : Option String := none
  iconsWeight : Option Int := none
  shadowColor : Option String := none
  shadowBlur : Option Int := none
  shadowOffsetX : Option Int := none
  shadowOffsetY : Option Int := none

/-- The global configuration set by `prepareVariables` (IMAGE_SIZE,
ICONS_COLOR, ICONS_BACKGROUND, ICONS_WEIGHT and the shadow settings).
The derived canvas geometry (CTX_OFFSET and friends) is pure arithmetic
on `iconsSize` consumed only by the injected canvas capability, so it is
not replicated here. -/
structure Config where
  iconsSize : Int
  iconsColor : String
  iconsBackground : Option String
  iconsWeight : Int
  shadowColor : String
  shadowBlur : Int
  shadowOffsetX : Int
  shadowOffsetY : Int
deriving DecidableEq, Repr

/-- Translation of `prepareVariables` (defaulting of the globals). -/
def prepareVariables (p : InitialParameters) : Config :=
  { iconsSize := jsIntOr p.iconsSize 93
  , iconsColor := jsStrOr p.iconsColor "white"
  , iconsBackground := p.iconsBgColor
  , iconsWeight := jsIntOr p.iconsWeight 400
  , shadowColor := jsStrOr p.shadowColor "rgba(0 0 0 / 20%)"
  , shadowBlur := jsIntOr p.shadowBlur 0
  , shadowOffsetX := jsIntOr p.shadowOffsetX 0
  , shadowOffsetY := jsIntOr p.shadowOffsetY 0 }

/-- Configuration produced by calling `prepareVariables` with an empty
parameter object: all defaults, in particular ICONS_WEIGHT = 400. -/
def defaultConfig : Config := prepareVariables {}

/-- Configuration produced by `prepareVariables` with iconsWeight 300. -/
def weight300Config : Config := prepareVariables { iconsWeight := some 300 }

/-- A synchronous JavaScript runtime exception. -/
inductive JsError where
  | typeError (msg : String)
deriving DecidableEq, Repr

/-- Injected platform capabilities.  `fetch url mime` is the synchronous
XMLHttpRequest with overridden MIME type; `btoa` is the base64 encoder
composed with the URI encode/decode normalization; `recolorSvg mime markup
color` is the DOMParser parse, fill/stroke rewrite and XMLSerializer
serialization; `rasterize cfg bg src` is the canvas composition returning
a data URL; `randomColor` is the value produced by `getRandomColor`. -/
structure Platform where
  fetch : String → String → FetchResponse
  btoa : String → String
  recolorSvg : String → String → String → String
  rasterize : Config → String → String → String
  randomColor : String

/-- A concrete platform whose every fetch fails with status 404. -/
def trivialPlatform : Platform :=
  { fetch := fun _ _ => { status := 404, body := "" }
  , btoa := fun s => s
  , recolorSvg := fun _ m _ => m
  , rasterize := fun _ _ _ => ""
  , randomColor := "#abcdef" }

/-- A menu node.  `id` is modelled as a string (the source admits string
or number and only ever stringifies it).  An absent and an empty
`children` array behave identically in every use site of the source
(`children?.length` guards each one), so both are modelled as `[]`.
`base64Promise` is `some p` when the decorator attached a resolution
whose settled payload is `p` (the payload itself may be `undefined`). -/
inductive MenuNode where
  | mk (id : String) (title : String) (subtitle : Option String)
       (children : List MenuNode)
       (icon : Option String) (base64 : Option String) (imageUrl : Option String)
       (base64Promise : Option (Option String))

def MenuNode.id : MenuNode → String
  | .mk i _ _ _ _ _ _ _ => i

def MenuNode.title : MenuNode → String
  | .mk _ t _ _ _ _ _ _ => t

def MenuNode.subtitle : MenuNode → Option String
  | .mk _ _ s _ _ _ _ _ => s

def MenuNode.children : MenuNode → List MenuNode
  | .mk _ _ _ c _ _ _ _ => c

def MenuNode.icon : MenuNode → Option String
  | .mk _ _ _ _ i _ _ _ => i

def MenuNode.base64 : MenuNode → Option String
  | .mk _ _ _ _ _ b _ _ => b

def MenuNode.imageUrl : MenuNode → Option String
  | .mk _ _ _ _ _ _ u _ => u

def MenuNode.base64Promise : MenuNode → Option (Option String)
  | .mk _ _ _ _ _ _ _ p => p

/-- Split a character list at every occurrence of the character `c`
(JavaScript `s.split(c)` for a single-character separator). -/
def splitChar (c : Char) : List Char → List (List Char)
  | [] => [[]]
  | x :: rest =>
    if x == c then [] :: splitChar c rest
    else
      match splitChar c rest with
      | [] => [[x]]
      | h :: t => (x :: h) :: t

/-- Split a character list at the non-overlapping occurrences of the
non-empty separator `sep`, scanning left to right (JavaScript
`s.split(sep)` for a multi-character separator).  The first argument is
recursion fuel; any fuel at least the length of the list is enough. -/
def splitSeqFuel (sep : List Char) : Nat → List Char → List (List Char)
  | 0, s => [s]
  | _ + 1, [] => [[]]
  | fuel + 1, x :: rest =>
    if sep.isPrefixOf (x :: rest) then
      [] :: splitSeqFuel sep fuel (List.drop sep.length (x :: rest))
    else
      match splitSeqFuel sep fuel rest with
      | [] => [[x]]
      | h :: t => (x :: h) :: t

/-- JavaScript `s.split(sep)` on strings, via the character lists. -/
def jsSplitSeq (s sep : String) : List String :=
  (splitSeqFuel sep.data s.data.length s.data).map String.mk

/-- JavaScript `s.split(c)` for a single-character separator. -/
def jsSplitChar (s : String) (c : Char) : List String :=
  (splitChar c s.data).map String.mk

/-- Translation of `cutBase64DataType`: a falsy argument or one that does
not contain the substring "base64," is returned unchanged, otherwise the
piece after the first occurrence and before the next one
(JavaScript `split("base64,")[1]`). -/
def cutBase64DataType : Option String → Option String
  | none => none
  | some s =>
    if s = "" then some s
    else
      let parts := jsSplitSeq s "base64,"
      if parts.length = 1 then some s
      else some ((parts.get? 1).getD "")

/-- The fixed delimiter list of `getIconSeparator`, in priority order. -/
def iconSeparators : List Char :=
  [';', ':', '|', '/', '=', '+', '*', ',', '.', '#']

/-- JavaScript `icon.includes(sep)` for the single-character delimiters. -/
def includesChar (s : String) (c : Char) : Bool :=
  s.data.contains c

/-- Translation of `getIconSeparator`: first delimiter of the fixed list
that occurs anywhere in the string, `undefined` when the argument is falsy
or delimiter-free. -/
def getIconSeparator : Option String → Option Char
  | none => none
  | some s =>
    if s = "" then none
    else iconSeparators.find? (fun c => includesChar s c)

/-- Model of JavaScript `parseInt` in base 10: skip leading whitespace,
accept an optional sign and a leading digit run; `none` models NaN. -/
def jsParseInt (o : Option String) : Option Int :=
  match o with
  | none => none
  | some s =>
    let digitsVal : List Char → Option Nat := fun cs =>
      let ds := cs.takeWhile (fun c => c.isDigit)
      if ds.isEmpty then none
      else some (ds.foldl (fun a c => a * 10 + (c.toNat - 48)) 0)
    match s.data.dropWhile (fun c => c.isWhitespace) with
    | '-' :: rest => (digitsVal rest).map (fun n => -(n : Int))
    | '+' :: rest => (digitsVal rest).map (fun n => (n : Int))
    | rest => (digitsVal rest).map (fun n => (n : Int))

/-- Translation of `getMaterialIconLink`. -/
def getMaterialIconLink (icon : String) (weight : Int) (style : Option String) : String :=
  let iconWeight : String := if weight = 400 then "default" else "wght" ++ toString weight
  let iconStyle : String :=
    if style ≠ some "rounded" ∧ style ≠ some "outlined" then "rounded" else style.getD ""
  "https://fonts.gstatic.com/s/i/short-term/release/materialsymbols" ++ iconStyle
    ++ "/" ++ icon ++ "/" ++ iconWeight ++ "/48px.svg"

/-- Translation of `getMaterialIcon`.  With no delimiter the whole string
is the icon name and the configured weight is used; otherwise the split
yields the positional fields [name, _, _, weight, style] and
`parseInt(weight) || ICONS_WEIGHT` resolves the weight. -/
def getMaterialIcon (cfg : Config) (icon : Option String) : Option String :=
  match icon with
  | none => none
  | some s =>
    if s = "" then none
    else
      match getIconSeparator (some s) with
      | none => some (getMaterialIconLink s cfg.iconsWeight none)
      | some sep =>
        let parts := jsSplitChar s sep
        let iconName := (parts.get? 0).getD ""
        let iconWeight := jsIntOr (jsParseInt (parts.get? 3)) cfg.iconsWeight
        some (getMaterialIconLink iconName iconWeight (parts.get? 4))

/-- Translation of `getSvgColors`. -/
def getSvgColors (icon : Option String) : Option SvgColors :=
  match icon with
  | none => none
  | some s =>
    if s = "" then none
    else
      match getIconSeparator (some s) with
      | none => none
      | some sep =>
        let parts := jsSplitChar s sep
        some { iconColor := parts.get? 1, bgColor := parts.get? 2 }

/-- The ImageInfo literal constructed inside `updateMenuItems` from the
destructured `icon`, `base64` and `imageUrl` fields of a node. -/
def buildImageInfo (cfg : Config) (icon base64 imageUrl : Option String) : ImageInfo :=
  { type := jsOr (jsAnd base64 "base64") (jsOr (jsAnd icon "svg") (jsAnd imageUrl "jpg"))
  , source := jsOr (cutBase64DataType base64) (jsOr (getMaterialIcon cfg icon) imageUrl)
  , svgColors := getSvgColors icon }

/-- Translation of `deleteItemProperties`: the raw source fields are
removed and an empty subtitle is removed (children are a plain list in
this model, an empty list already represents a deleted field). -/
def deleteItemProperties : MenuNode → MenuNode
  | .mk id title st ch _ _ _ bp =>
    .mk id title (if truthyS st then st else none) ch none none none bp


/-- The IMAGE_DATA_INFO map lookup on the raw `type` value of a
descriptor: only the keys "svg" and "jpg" are present. -/
def imageDataInfoGet (t : Option String) : Option ImageDataInfo :=
  if t = some "svg" then some { base64Data := "image/svg+xml", mimeType := "image/svg+xml" }
  else if t = some "jpg" then
    some { base64Data := "image/jpeg", mimeType := "text/plain; charset=x-user-defined" }
  else none

/-- The message of the TypeError raised when a member of `undefined` is
read. -/
def undefinedMimeMsg : String := "TypeError: cannot read mimeType of undefined"

/-- The URL string the XMLHttpRequest receives: `xhr.open` stringifies an
`undefined` first argument. -/
def jsUrlString : Option String → String
  | none => "undefined"
  | some s => s

/-- Translation of `getImageFromUrl`.  Reading `info.mimeType` from an
`undefined` info throws a TypeError before any request is sent; otherwise
the synchronous request runs and a non-200 status yields `undefined`
(`return;`), a 200 status yields the response text. -/
def getImageFromUrl (pf : Platform) (url : Option String) (info : Option ImageDataInfo) :
    Except JsError (Option String) :=
  match info with
  | none => .error (.typeError undefinedMimeMsg)
  | some i =>
    let r := pf.fetch (jsUrlString url) i.mimeType
    if r.status ≠ 200 then .ok none else .ok (some r.body)

/-- Translation of `getColorizedSvgBase64`: `undefined` unless the
descriptor kind is "svg", otherwise the recolored, re-serialized markup
encoded to base64.  The DOM parsing, fill/stroke rewriting and
serialization are the injected `recolorSvg` capability; the encode/decode
normalization plus `btoa` are the injected `btoa`. -/
def getColorizedSvgBase64 (pf : Platform) (cfg : Config) (imageResponse : String)
    (image : ImageInfo) (info : ImageDataInfo) : Option String :=
  if image.type = some "svg" then
    let color := jsStrOr (image.svgColors.bind (fun sc => sc.iconColor)) cfg.iconsColor
    some (pf.btoa (pf.recolorSvg info.base64Data imageResponse color))
  else none

/-- Translation of `getImageBas64`: mask every char code to one byte and
base64-encode the result. -/
def getImageBas64 (pf : Platform) (imageResponse : String) : String :=
  pf.btoa (String.mk (imageResponse.data.map (fun c => Char.ofNat (c.toNat % 256))))

/-- Translation of `convertSvgToPng`: the canvas composition (rounded
background, optional shadow, centered draw, toDataURL) is the injected
`rasterize` capability; the background color is
`image.svgColors?.bgColor || ICONS_BACKGROUND || getRandomColor()`. -/
def convertSvgToPng (pf : Platform) (cfg : Config) (base64 : String)
    (image : ImageInfo) (info : ImageDataInfo) : String :=
  let bg := jsStrOr (jsOr (image.svgColors.bind (fun sc => sc.bgColor)) cfg.iconsBackground)
    pf.randomColor
  pf.rasterize cfg bg ("data:" ++ info.base64Data ++ ";base64," ++ base64)

/-- Translation of `convertImageUrlToBase64`, the resolution
orchestrator.  A "base64" kind resolves to the descriptor source at once.
Otherwise `IMAGE_DATA_INFO.get(image.type)` is consulted; when it yields
`undefined` the subsequent `getImageFromUrl` call throws the TypeError on
reading `info.mimeType` (the `none` branch below, the same error
`getImageFromUrl pf _ none` produces).  A falsy response body resolves to
the empty string; an "svg" kind is recolored and rasterized; any other
fetched body is byte-wise base64 encoded. -/
def convertImageUrlToBase64 (pf : Platform) (cfg : Config) (image : ImageInfo) :
    Except JsError (Option String) :=
  if image.type = some "base64" then .ok image.source
  else
    match imageDataInfoGet image.type with
    | none => .error (.typeError undefinedMimeMsg)
    | some info =>
      match getImageFromUrl pf image.source (some info) with
      | .error e => .error e
      | .ok imageResponse =>
        if truthyS imageResponse = false then .ok (some "")
        else
          let body := imageResponse.getD ""
          let base64 := jsOr (getColorizedSvgBase64 pf cfg body image info)
            (some (getImageBas64 pf body))
          if image.type = some "svg" then
            .ok (some (convertSvgToPng pf cfg (base64.getD "") image info))
          else .ok base64

/-- Translation of `updateMenuItems`, the menu decorator.  Each node of
the list is classified, stripped by `deleteItemProperties`, given its
pending resolution, and its children are decorated recursively; a
synchronous throw inside `convertImageUrlToBase64` aborts the whole
`forEach` walk, which the `Except` propagation models. -/
def updateMenuItems (pf : Platform) (cfg : Config) : List MenuNode → Except JsError (List MenuNode)
  | [] => .ok []
  | MenuNode.mk id title st children icon b64 url bp :: rest =>
    let image := buildImageInfo cfg icon b64 url
    match deleteItemProperties (MenuNode.mk id title st children icon b64 url bp) with
    | MenuNode.mk id1 title1 st1 _ icon1 b641 url1 _ =>
      match convertImageUrlToBase64 pf cfg image with
      | .error e => .error e
      | .ok payload =>
        match (if children.length = 0 then .ok children else updateMenuItems pf cfg children) with
        | .error e => .error e
        | .ok children1 =>
          match updateMenuItems pf cfg rest with
          | .error e => .error e
          | .ok rest1 =>
            .ok (MenuNode.mk id1 title1 st1 children1 icon1 b641 url1 (some payload) :: rest1)

/-- Translation of `getMenuList`: one vCard block for a node, awaiting
its pending resolution (`await undefined` yields `undefined` for an
undecorated node). -/
def getMenuList (n : MenuNode) : String :=
  let base64Response : Option String := n.base64Promise.join
  let base64 := cutBase64DataType base64Response
  let org := if truthyS n.subtitle then "ORG:" ++ n.subtitle.getD "" ++ "\n" else ""
  let photo := if truthyS base64 then "PHOTO;BASE64:" ++ base64.getD "" ++ "\n" else ""
  "BEGIN:VCARD\nVERSION:4.0\nN:" ++ n.title ++ "\nNOTE:" ++ n.id ++ "\n"
    ++ org ++ photo ++ "END:VCARD\n"

/-- The flattened record object, as an insertion-ordered association
list with unique keys. -/
abbrev FlatRecord := List (String × String)

/-- The members a plain JavaScript object inherits from
Object.prototype, together with the string coercion produced when the
compound assignment reads one of them: the named members are native
functions rendered in the NativeFunction form (the "constructor" member
is the Object constructor, so it renders under that name), and
"__proto__" is an accessor whose getter returns the prototype object,
which coerces to "[object Object]".  Every inherited value is truthy. -/
def inheritedRead (key : String) : Option String :=
  if key = "__proto__" then some "[object Object]"
  else if key = "constructor" then some "function Object() \x7b [native code] \x7d"
  else if key ∈ ["hasOwnProperty", "isPrototypeOf", "propertyIsEnumerable",
      "toLocaleString", "toString", "valueOf", "__defineGetter__", "__defineSetter__",
      "__lookupGetter__", "__lookupSetter__"] then
    some ("function " ++ key ++ "() \x7b [native code] \x7d")
  else none

/-- The body of `flatten`-s record update:
`if (!result[key]) result[key] = ''; result[key] += blk`, on the plain
object `result = \x7b\x7d` whose own properties the list models.  An
own value has the block appended (a falsy own "" is first reset to "",
which changes nothing).  With no own property the read falls through to
Object.prototype: an ordinary absent key reads `undefined` (falsy), is
initialized to "" and appended at the end in insertion order; an
inherited member name reads a truthy value, so the initialization is
skipped and the compound assignment starts from that value-s string
coercion — for the function-valued members the assignment creates an
own property shadowing the prototype, while for "__proto__" it runs the
inherited accessor, which silently ignores a string value, so no own
property is ever created and the block is lost. -/
def recUpdate (r : FlatRecord) (key blk : String) : FlatRecord :=
  match r.lookup key with
  | some _ => r.map (fun p => if p.1 = key then (p.1, p.2 ++ blk) else p)
  | none =>
    match inheritedRead key with
    | none => r ++ [(key, blk)]
    | some s => if key = "__proto__" then r else r ++ [(key, s ++ blk)]

mutual
/-- Translation of the inner `flatten(node, key)` of
`flattenMenuOptions`: emit the node's block under `key`, then flatten the
children under the node's own id. -/
def flattenNodeInto (r : FlatRecord) (key : String) : MenuNode → FlatRecord
  | MenuNode.mk id title st children icon b64 url bp =>
    let r1 := recUpdate r key (getMenuList (MenuNode.mk id title st children icon b64 url bp))
    flattenListInto r1 id children

/-- Flattening of a node list under one key (the `for of` loops of the
source). -/
def flattenListInto (r : FlatRecord) (key : String) : List MenuNode → FlatRecord
  | [] => r
  | n :: rest => flattenListInto (flattenNodeInto r key n) key rest
end

/-- Translation of `flattenMenuOptions`: top-level nodes are grouped
under the synthetic key "#root". -/
def flattenMenuOptions (options : List MenuNode) : FlatRecord :=
  flattenListInto [] "#root" options

/-- Modelled from the spec wording for the vCard block shape: the literal
BEGIN/VERSION/N/NOTE lines, an ORG line present exactly when the subtitle
is non-empty, a PHOTO line present exactly when the resolved payload,
after stripping any data-URL prefix, is non-empty, and the closing END
line. -/
def vcardBlock (n : MenuNode) : String :=
  let resolved : Option String := n.base64Promise.join
  let payload : String := (cutBase64DataType resolved).getD ""
  let subtitle : String := n.subtitle.getD ""
  "BEGIN:VCARD\nVERSION:4.0\nN:" ++ n.title ++ "\nNOTE:" ++ n.id ++ "\n"
    ++ (if subtitle ≠ "" then "ORG:" ++ subtitle ++ "\n" else "")
    ++ (if payload ≠ "" then "PHOTO;BASE64:" ++ payload ++ "\n" else "")
    ++ "END:VCARD\n"

mutual
/-- Depth-first pre-order enumeration of a node and its descendants as
(grouping key, node) pairs: the node itself belongs to the given group,
its children to the group named by the node's own id. -/
def nodePairs (key : String) : MenuNode → List (String × MenuNode)
  | MenuNode.mk id title st children icon b64 url bp =>
    (key, MenuNode.mk id title st children icon b64 url bp) :: listPairs id children

/-- Depth-first pre-order enumeration of a node list under one group. -/
def listPairs (key : String) : List MenuNode → List (String × MenuNode)
  | [] => []
  | n :: rest => nodePairs key n ++ listPairs key rest
end

/-- Concatenation of a list of strings, in order. -/
def strConcat : List String → String
  | [] => ""
  | s :: rest => s ++ strConcat rest

/-- Concatenation of the vCard blocks of the pre-order pairs that belong
to the group `key`. -/
def specBlocks (key : String) (ps : List (String × MenuNode)) : String :=
  strConcat (ps.filterMap (fun p => if p.1 = key then some (vcardBlock p.2) else none))

/-- The keys of a list in order of first occurrence, without duplicates. -/
def firstOccKeys : List String → List String
  | [] => []
  | k :: rest => k :: firstOccKeys (rest.filter (fun x => x ≠ k))
termination_by l => l.length
decreasing_by
  simp only [List.length_cons]
  exact Nat.lt_succ_of_le (List.length_filter_le _ _)

/-- Modelled from the spec wording for the flattened mapping: one entry
per grouping key in order of first appearance, whose value concatenates
the vCard blocks of that group's nodes in depth-first pre-order; the
top-level group is the synthetic key "#root" and every other group is
named by the parent's id. -/
def specFlattenMenuOptions (options : List MenuNode) : FlatRecord :=
  let ps := listPairs "#root" options
  (firstOccKeys (ps.map Prod.fst)).map (fun k => (k, specBlocks k ps))

deriving instance DecidableEq for Except

/-- The resource link always starts with the icon host, so it is never
the empty string. -/
theorem getMaterialIconLink_ne_empty (icon : String) (weight : Int) (style : Option String) :
    getMaterialIconLink icon weight style ≠ "" := by
  intro h
  have hlen := congrArg String.length h
  simp only [getMaterialIconLink, String.length_append] at hlen
  have h1 : ("https://fonts.gstatic.com/s/i/short-term/release/materialsymbols" : String).length = 64 := by
    decide
  have h2 : ("/" : String).length = 1 := by decide
  have h3 : ("/48px.svg" : String).length = 9 := by decide
  have h4 : ("" : String).length = 0 := by decide
  rw [h1, h2, h3, h4] at hlen
  omega

/-- A truthy icon reference always resolves to a resource link. -/
theorem getMaterialIcon_isSome (cfg : Config) (icon : String) (h : icon ≠ "") :
    ∃ l, getMaterialIcon cfg (some icon) = some l ∧ l ≠ "" := by
  simp only [getMaterialIcon, if_neg h]
  cases getIconSeparator (some icon) with
  | none => exact ⟨_, rfl, getMaterialIconLink_ne_empty _ _ _⟩
  | some sep => exact ⟨_, rfl, getMaterialIconLink_ne_empty _ _ _⟩

/-- Claim C4: the classifier resolves the kind of a node by the fixed
priority inline-encoded data, then icon reference, then remote link: a
truthy base64 field always classifies as "base64" (and the resolution of
such a descriptor succeeds at once with the descriptor source, ignoring
the other fields without error); with base64 falsy a truthy icon
classifies as "svg"; with both falsy a truthy imageUrl classifies as
"jpg". -/
theorem classifier_priority (pf : Platform) (cfg : Config) (icon base64 imageUrl : Option String) :
    (truthyS base64 = true →
      (buildImageInfo cfg icon base64 imageUrl).type = some "base64" ∧
      convertImageUrlToBase64 pf cfg (buildImageInfo cfg icon base64 imageUrl) =
        .ok (buildImageInfo cfg icon base64 imageUrl).source) ∧
    (truthyS base64 = false → truthyS icon = true →
      (buildImageInfo cfg icon base64 imageUrl).type = some "svg") ∧
    (truthyS base64 = false → truthyS icon = false → truthyS imageUrl = true →
      (buildImageInfo cfg icon base64 imageUrl).type = some "jpg") := by
  refine ⟨fun hb => ?_, fun hb hi => ?_, fun hb hi hu => ?_⟩
  · have htype : (buildImageInfo cfg icon base64 imageUrl).type = some "base64" := by
      simp +decide [buildImageInfo, jsOr, jsAnd, hb]
    exact ⟨htype, by simp [convertImageUrlToBase64, htype]⟩
  · simp +decide [buildImageInfo, jsOr, jsAnd, hb, hi]
  · simp +decide [buildImageInfo, jsOr, jsAnd, hb, hi, hu]

/-- Witness for C4 at a node carrying both inline data and an icon
reference: the kind is "base64" and resolution returns the inline source
(the bare payload) untouched. -/
theorem classifier_priority_witness :
    (buildImageInfo defaultConfig (some "home") (some "iVBORw") none).type = some "base64" ∧
    convertImageUrlToBase64 trivialPlatform defaultConfig
      (buildImageInfo defaultConfig (some "home") (some "iVBORw") none) = .ok (some "iVBORw") := by
  have h := (classifier_priority trivialPlatform defaultConfig (some "home") (some "iVBORw") none).1
    (by decide)
  refine ⟨h.1, h.2.trans ?_⟩
  decide

/-- Claim C5: an inline field carrying a full data URL has its prefix
stripped up to and including "base64," by the classifier, and resolution
returns the bare payload unchanged for every platform (hence without any
fetch, recolor or raster step) and every configuration. -/
theorem inline_data_url_stripped (pf : Platform) (cfg : Config) :
    cutBase64DataType (some "data:image/png;base64,AAAA") = some "AAAA" ∧
    (buildImageInfo cfg none (some "data:image/png;base64,AAAA") none).type = some "base64" ∧
    convertImageUrlToBase64 pf cfg (buildImageInfo cfg none (some "data:image/png;base64,AAAA") none) =
      .ok (some "AAAA") := by
  refine ⟨by decide, rfl, ?_⟩
  rfl

/-- Claim C8: the generated resource link carries the weight path segment
"default" exactly for weight 400 and "wght" followed by the weight for
every other integer weight, in the fixed link shape. -/
theorem weight_path_segment (icon : String) (weight : Int) (style : Option String) :
    ∃ pre, getMaterialIconLink icon weight style =
      pre ++ "/" ++ (if weight = 400 then "default" else "wght" ++ toString weight) ++ "/48px.svg" := by
  refine ⟨"https://fonts.gstatic.com/s/i/short-term/release/materialsymbols"
    ++ (if style ≠ some "rounded" ∧ style ≠ some "outlined" then "rounded" else style.getD "")
    ++ "/" ++ icon, ?_⟩
  simp only [getMaterialIconLink]

/-- Claim C6: whenever the descriptor kind has an IMAGE_DATA_INFO entry
(so it is the vector-reference kind "svg" or the remote-link kind "jpg")
and the fetch for the descriptor source returns a status other than 200,
resolution completes with the empty string and no error; the conclusion
holds for every platform, so no recolor, raster or encode capability can
influence the result. -/
theorem fetch_failure_resolves_empty (pf : Platform) (cfg : Config) (image : ImageInfo)
    (info : ImageDataInfo) (hinfo : imageDataInfoGet image.type = some info)
    (hstatus : (pf.fetch (jsUrlString image.source) info.mimeType).status ≠ 200) :
    convertImageUrlToBase64 pf cfg image = .ok (some "") := by
  have htype : ¬ image.type = some "base64" := by
    intro h
    rw [h] at hinfo
    simp [imageDataInfoGet] at hinfo
  simp only [convertImageUrlToBase64, if_neg htype, hinfo, getImageFromUrl]
  rw [if_pos hstatus]
  simp [truthyS]

/-- Witness for C6: a vector-reference node against a platform whose
fetches all fail with status 404. -/
theorem fetch_failure_resolves_empty_witness :
    convertImageUrlToBase64 trivialPlatform defaultConfig
      (buildImageInfo defaultConfig (some "home") none none) = .ok (some "") :=
  fetch_failure_resolves_empty trivialPlatform defaultConfig
    (buildImageInfo defaultConfig (some "home") none none)
    { base64Data := "image/svg+xml", mimeType := "image/svg+xml" }
    (by decide) (by decide)

/-- The first element of a list satisfying a predicate, in list order, is
what `find?` returns: it satisfies the predicate and its index is minimal
among all members that satisfy it. -/
theorem find?_min_indexOf {α : Type} [DecidableEq α] (p : α → Bool) :
    ∀ (l : List α) (a : α), a ∈ l → p a = true →
      ∃ b, l.find? p = some b ∧ b ∈ l ∧ p b = true ∧ l.indexOf b ≤ l.indexOf a := by
  intro l
  induction l with
  | nil => intro a ha; cases ha
  | cons x rest ih =>
    intro a ha hp
    by_cases hx : p x = true
    · refine ⟨x, List.find?_cons_of_pos rest hx, List.mem_cons_self x rest, hx, ?_⟩
      rw [List.indexOf_cons_self]
      exact Nat.zero_le _
    · have hax : x ≠ a := by
        intro h
        exact hx (h ▸ hp)
      have ha2 : a ∈ rest := by
        cases ha with
        | head => exact absurd rfl hax
        | tail _ h => exact h
      obtain ⟨b, hfind, hmem, hpb, hle⟩ := ih a ha2 hp
      have hbx : x ≠ b := by
        intro h
        exact hx (h ▸ hpb)
      refine ⟨b, ?_, List.mem_cons_of_mem x hmem, hpb, ?_⟩
      · rw [List.find?_cons_of_neg rest hx, hfind]
      · rw [List.indexOf_cons_ne rest hbx, List.indexOf_cons_ne rest hax]
        exact Nat.succ_le_succ hle

/-- Claim C9: whenever some delimiter of the fixed list occurs in an icon
string, `getIconSeparator` picks a delimiter that occurs in the string
and comes no later in the fixed list than any other occurring delimiter:
the choice is the first character in the fixed list order that occurs
anywhere in the string, independent of positions within the string. -/
theorem separator_priority (s : String) (c : Char) (hc : c ∈ iconSeparators)
    (hs : includesChar s c = true) :
    ∃ c2, getIconSeparator (some s) = some c2 ∧ c2 ∈ iconSeparators ∧
      includesChar s c2 = true ∧
      iconSeparators.indexOf c2 ≤ iconSeparators.indexOf c := by
  have hne : s ≠ "" := by
    intro h
    subst h
    simp [includesChar] at hs
  obtain ⟨b, hfind, hmem, hpb, hle⟩ :=
    find?_min_indexOf (fun d => includesChar s d) iconSeparators c hc hs
  refine ⟨b, ?_, hmem, hpb, hle⟩
  simp only [getIconSeparator, if_neg hne]
  exact hfind

/-- Witness for C9: in "a.b;c" both the dot and the semicolon occur; the
semicolon wins because it comes first in the fixed list, although the dot
occurs earlier in the string. -/
theorem separator_priority_witness :
    ∃ c2, getIconSeparator (some "a.b;c") = some c2 ∧ c2 ∈ iconSeparators ∧
      includesChar "a.b;c" c2 = true ∧
      iconSeparators.indexOf c2 ≤ iconSeparators.indexOf '.' :=
  separator_priority "a.b;c" '.' (by decide) (by decide)

/-- Claim C10: a node whose inline field is a bare data-URL prefix with
empty payload, together with an icon reference, is classified as the
inline kind, but the descriptor source falls through the truthiness
chain to the icon's generated resource link; resolution therefore
returns that URL string verbatim as the payload, for every platform. -/
theorem empty_inline_payload_falls_back (pf : Platform) (cfg : Config) (s icon : String)
    (hsne : s ≠ "") (hcut : cutBase64DataType (some s) = some "") (hicon : icon ≠ "") :
    (buildImageInfo cfg (some icon) (some s) none).type = some "base64" ∧
    (buildImageInfo cfg (some icon) (some s) none).source = getMaterialIcon cfg (some icon) ∧
    convertImageUrlToBase64 pf cfg (buildImageInfo cfg (some icon) (some s) none) =
      .ok (getMaterialIcon cfg (some icon)) := by
  obtain ⟨l, hlink, hlne⟩ := getMaterialIcon_isSome cfg icon hicon
  have htype : (buildImageInfo cfg (some icon) (some s) none).type = some "base64" := by
    simp +decide [buildImageInfo, jsOr, jsAnd, truthyS, hsne]
  have hsource : (buildImageInfo cfg (some icon) (some s) none).source =
      getMaterialIcon cfg (some icon) := by
    simp [buildImageInfo, hcut, hlink, jsOr, truthyS, hlne]
  refine ⟨htype, hsource, ?_⟩
  simp [convertImageUrlToBase64, htype, hsource]

/-- Witness for C10 at the inline field "data:image/png;base64," and the
icon reference "home": resolution returns the generated icon link. -/
theorem empty_inline_payload_falls_back_witness :
    convertImageUrlToBase64 trivialPlatform defaultConfig
      (buildImageInfo defaultConfig (some "home") (some "data:image/png;base64,") none) =
      .ok (getMaterialIcon defaultConfig (some "home")) :=
  (empty_inline_payload_falls_back trivialPlatform defaultConfig "data:image/png;base64," "home"
    (by decide) (by decide) (by decide)).2.2

/-- Counterexample to claim C7 as stated: under the reachable
configuration `prepareVariables { iconsWeight := 300 }`, the
delimiter-free, non-empty icon reference "home" resolves to a link whose
path segments contain "wght300" and no segment "default". -/
theorem no_delimiter_default_weight_counterexample :
    getIconSeparator (some "home") = none ∧
    getMaterialIcon weight300Config (some "home") =
      some "https://fonts.gstatic.com/s/i/short-term/release/materialsymbolsrounded/home/wght300/48px.svg" ∧
    (jsSplitChar "https://fonts.gstatic.com/s/i/short-term/release/materialsymbolsrounded/home/wght300/48px.svg" '/').contains "default" = false ∧
    (jsSplitChar "https://fonts.gstatic.com/s/i/short-term/release/materialsymbolsrounded/home/wght300/48px.svg" '/').contains "wght300" = true := by
  decide

/-- Claim C7 as amended: a non-empty icon reference containing none of
the ten delimiter characters resolves to a link whose icon-name path
segment is the full input string and whose weight path segment follows
the configured weight: "default" when the configured weight is 400 (the
default), "wght" followed by the weight otherwise. -/
theorem no_delimiter_icon_link (cfg : Config) (s : String) (hne : s ≠ "")
    (hnd : iconSeparators.all (fun c => !(includesChar s c)) = true) :
    getMaterialIcon cfg (some s) =
      some ("https://fonts.gstatic.com/s/i/short-term/release/materialsymbolsrounded/" ++ s ++ "/"
        ++ (if cfg.iconsWeight = 400 then "default" else "wght" ++ toString cfg.iconsWeight)
        ++ "/48px.svg") := by
  have hfind : iconSeparators.find? (fun c => includesChar s c) = none := by
    rw [List.find?_eq_none]
    intro x hx
    have hx2 := List.all_eq_true.mp hnd x hx
    simp at hx2
    simp [hx2]
  simp only [getMaterialIcon, getIconSeparator, if_neg hne, hfind, getMaterialIconLink]
  have hstyle : ((if (none : Option String) ≠ some "rounded" ∧ (none : Option String) ≠ some "outlined"
      then "rounded" else (none : Option String).getD "") : String) = "rounded" := by decide
  rw [hstyle]
  have hlit : ("https://fonts.gstatic.com/s/i/short-term/release/materialsymbols" : String)
      ++ "rounded" ++ "/" = "https://fonts.gstatic.com/s/i/short-term/release/materialsymbolsrounded/" := by
    decide
  rw [← hlit]

/-- Witness for the amended C7 at the icon reference "home" under the
default configuration. -/
theorem no_delimiter_icon_link_witness :
    getMaterialIcon defaultConfig (some "home") =
      some ("https://fonts.gstatic.com/s/i/short-term/release/materialsymbolsrounded/" ++ "home" ++ "/"
        ++ (if defaultConfig.iconsWeight = 400 then "default" else "wght" ++ toString defaultConfig.iconsWeight)
        ++ "/48px.svg") :=
  no_delimiter_icon_link defaultConfig "home" (by decide) (by decide)

/-- Claim C1 fails on the code: for a node with none of the three raw
image-source fields the classifier kind is `undefined` (absent), but
resolution does not yield the empty string — the IMAGE_DATA_INFO lookup
yields `undefined` and `getImageFromUrl` throws a TypeError reading its
`mimeType`, which propagates synchronously out of the decorator. -/
theorem absent_node_decoration_throws :
    (buildImageInfo defaultConfig none none none).type = none ∧
    convertImageUrlToBase64 trivialPlatform defaultConfig
      (buildImageInfo defaultConfig none none none) =
      .error (.typeError undefinedMimeMsg) ∧
    updateMenuItems trivialPlatform defaultConfig
      [MenuNode.mk "a" "A" none [] none none none none] =
      .error (.typeError undefinedMimeMsg) := by
  refine ⟨rfl, rfl, ?_⟩
  simp only [updateMenuItems, deleteItemProperties]
  rfl

/-- Claim C2 fails on the code: a node that has already been decorated
(no raw source fields, a pending resolution attached) is indeed
classified as the absent kind on a second pass, but the second pass
throws the same TypeError instead of completing. -/
theorem decorated_node_second_pass_throws :
    (buildImageInfo defaultConfig none none none).type = none ∧
    updateMenuItems trivialPlatform defaultConfig
      [MenuNode.mk "a" "A" none [] none none none (some (some "payload"))] =
      .error (.typeError undefinedMimeMsg) := by
  refine ⟨rfl, ?_⟩
  simp only [updateMenuItems, deleteItemProperties]
  rfl

/-- The per-node block emitted by the source equals the spec-shaped
block: same fixed lines, ORG present exactly for a non-empty subtitle,
PHOTO present exactly for a non-empty stripped payload. -/
theorem getMenuList_eq_vcardBlock (n : MenuNode) : getMenuList n = vcardBlock n := by
  simp only [getMenuList, vcardBlock]
  have horg : (if truthyS n.subtitle then "ORG:" ++ n.subtitle.getD "" ++ "\n" else "") =
      (if n.subtitle.getD "" ≠ "" then "ORG:" ++ n.subtitle.getD "" ++ "\n" else "") := by
    cases n.subtitle with
    | none => simp [truthyS]
    | some s => simp [truthyS]
  have hphoto : (if truthyS (cutBase64DataType n.base64Promise.join) then
        "PHOTO;BASE64:" ++ (cutBase64DataType n.base64Promise.join).getD "" ++ "\n" else "") =
      (if (cutBase64DataType n.base64Promise.join).getD "" ≠ "" then
        "PHOTO;BASE64:" ++ (cutBase64DataType n.base64Promise.join).getD "" ++ "\n" else "") := by
    cases cutBase64DataType n.base64Promise.join with
    | none => simp [truthyS]
    | some s => simp [truthyS]
  rw [horg, hphoto]

/-- Folding the per-pair record update over a pair list: the flattening
recursion below is exactly this fold. -/
def applyPairs (r : FlatRecord) (ps : List (String × MenuNode)) : FlatRecord :=
  ps.foldl (fun acc p => recUpdate acc p.1 (getMenuList p.2)) r

theorem applyPairs_nil (r : FlatRecord) : applyPairs r [] = r := rfl

theorem applyPairs_cons (r : FlatRecord) (p : String × MenuNode) (ps : List (String × MenuNode)) :
    applyPairs r (p :: ps) = applyPairs (recUpdate r p.1 (getMenuList p.2)) ps := rfl

theorem applyPairs_append (r : FlatRecord) (a b : List (String × MenuNode)) :
    applyPairs r (a ++ b) = applyPairs (applyPairs r a) b := by
  simp [applyPairs, List.foldl_append]

mutual
/-- The node-level flattening is the pair fold of the node's pre-order
pairs. -/
theorem flattenNodeInto_eq_applyPairs :
    (n : MenuNode) → ∀ (key : String) (r : FlatRecord),
      flattenNodeInto r key n = applyPairs r (nodePairs key n)
  | MenuNode.mk id title st children icon b64 url bp => fun key r => by
    simp only [flattenNodeInto, nodePairs, applyPairs_cons]
    exact flattenListInto_eq_applyPairs children id _

/-- The list-level flattening is the pair fold of the list's pre-order
pairs. -/
theorem flattenListInto_eq_applyPairs :
    (l : List MenuNode) → ∀ (key : String) (r : FlatRecord),
      flattenListInto r key l = applyPairs r (listPairs key l)
  | [] => fun key r => by simp [flattenListInto, listPairs, applyPairs_nil]
  | n :: rest => fun key r => by
    simp only [flattenListInto, listPairs, applyPairs_append]
    rw [flattenNodeInto_eq_applyPairs n key r]
    exact flattenListInto_eq_applyPairs rest key _
end

theorem lookup_cons_key (a k : String) (v : String) (es : FlatRecord) :
    List.lookup a ((k, v) :: es) = if a = k then some v else List.lookup a es := by
  by_cases h : a = k
  · simp [List.lookup_cons, h]
  · have hb : (a == k) = false := beq_eq_false_iff_ne.mpr h
    simp [List.lookup_cons, hb, h]

/-- A key is absent from an association list exactly when its lookup is
`none`. -/
theorem lookup_eq_none_iff_not_mem :
    ∀ (r : FlatRecord) (k : String), r.lookup k = none ↔ k ∉ r.map Prod.fst := by
  intro r
  induction r with
  | nil => simp
  | cons p rest ih =>
    intro k
    rw [show p = (p.1, p.2) from rfl, lookup_cons_key]
    by_cases h : k = p.1
    · simp [h]
    · simp [h, ih k]

/-- Appending a fresh single entry does not affect other keys. -/
theorem lookup_append_single_ne (k k2 b : String) (h : k2 ≠ k) :
    ∀ r : FlatRecord, (r ++ [(k, b)]).lookup k2 = r.lookup k2 := by
  intro r
  induction r with
  | nil => simp [lookup_cons_key, h]
  | cons p rest ih =>
    rw [show p = (p.1, p.2) from rfl, List.cons_append, lookup_cons_key, lookup_cons_key]
    by_cases h2 : k2 = p.1
    · simp [h2]
    · simp [h2, ih]

/-- Appending a fresh single entry makes its key found with its value
when the key was absent before. -/
theorem lookup_append_single_self (k b : String) :
    ∀ r : FlatRecord, r.lookup k = none → (r ++ [(k, b)]).lookup k = some b := by
  intro r
  induction r with
  | nil => simp [lookup_cons_key]
  | cons p rest ih =>
    intro hnone
    rw [show p = (p.1, p.2) from rfl, lookup_cons_key] at hnone
    rw [show p = (p.1, p.2) from rfl, List.cons_append, lookup_cons_key]
    by_cases h2 : k = p.1
    · rw [if_pos h2] at hnone
      exact absurd hnone (by simp)
    · rw [if_neg h2] at hnone
      rw [if_neg h2]
      exact ih hnone

/-- The value-updating map of `recUpdate` leaves every other key's
lookup unchanged. -/
theorem lookup_map_update_ne (k k2 b : String) (h : k2 ≠ k) :
    ∀ r : FlatRecord,
      (r.map (fun p => if p.1 = k then (p.1, p.2 ++ b) else p)).lookup k2 = r.lookup k2 := by
  intro r
  induction r with
  | nil => simp
  | cons p rest ih =>
    by_cases hp : p.1 = k
    · rw [List.map_cons, if_pos hp, lookup_cons_key, show p = (p.1, p.2) from rfl, lookup_cons_key]
      by_cases h2 : k2 = p.1
      · exact absurd (h2.trans hp) h
      · simp only [h2, if_false, if_neg h2]
        exact ih
    · rw [List.map_cons, if_neg hp, show p = (p.1, p.2) from rfl, lookup_cons_key, lookup_cons_key]
      by_cases h2 : k2 = p.1
      · simp [h2]
      · simp only [if_neg h2]
        exact ih

/-- Lookup of the updated key after `recUpdate`, for a key that is not
an inherited member name: the old value (empty when absent) with the
block appended. -/
theorem lookup_recUpdate_self :
    ∀ (r : FlatRecord) (k b : String), inheritedRead k = none →
      (recUpdate r k b).lookup k = some ((r.lookup k).getD "" ++ b) := by
  intro r
  induction r with
  | nil =>
    intro k b hinh
    simp [recUpdate, hinh, lookup_cons_key, String.empty_append]
  | cons p rest ih =>
    intro k b hinh
    obtain ⟨k1, v1⟩ := p
    by_cases hk : k = k1
    · subst hk
      have hlook : List.lookup k ((k, v1) :: rest) = some v1 := by
        rw [lookup_cons_key, if_pos rfl]
      simp only [recUpdate, hlook]
      simp [lookup_cons_key]
    · have hlook : List.lookup k ((k1, v1) :: rest) = List.lookup k rest := by
        rw [lookup_cons_key, if_neg hk]
      simp only [recUpdate, hlook]
      have ihkb := ih k b hinh
      simp only [recUpdate] at ihkb
      cases hrest : List.lookup k rest with
      | none =>
        simp only [hrest, hinh] at ihkb ⊢
        rw [List.cons_append, lookup_cons_key, if_neg hk]
        exact ihkb
      | some v =>
        simp only [hrest] at ihkb ⊢
        rw [List.map_cons, if_neg (show ¬ k1 = k from fun h2 => hk h2.symm),
          lookup_cons_key, if_neg hk]
        exact ihkb

/-- Lookup of any other key is unchanged by `recUpdate`, whichever
branch the update takes. -/
theorem lookup_recUpdate_ne (r : FlatRecord) (k k2 b : String) (h : k2 ≠ k) :
    (recUpdate r k b).lookup k2 = r.lookup k2 := by
  cases hl : List.lookup k r with
  | some v =>
    simp only [recUpdate, hl]
    exact lookup_map_update_ne k k2 b h r
  | none =>
    cases hi : inheritedRead k with
    | none =>
      simp only [recUpdate, hl, hi]
      exact lookup_append_single_ne k k2 b h r
    | some s =>
      by_cases hp : k = "__proto__"
      · simp only [recUpdate, hl, hi, if_pos hp]
      · simp only [recUpdate, hl, hi, if_neg hp]
        exact lookup_append_single_ne k k2 (s ++ b) h r

/-- The key list after `recUpdate` of a key that is not an inherited
member name: unchanged for a present key, the new key appended for an
absent one. -/
theorem recUpdate_map_fst (r : FlatRecord) (k b : String) (hinh : inheritedRead k = none) :
    (recUpdate r k b).map Prod.fst =
      if (r.lookup k).isSome then r.map Prod.fst else r.map Prod.fst ++ [k] := by
  simp only [recUpdate]
  cases hl : List.lookup k r with
  | none => simp [hinh]
  | some v =>
    simp only [Option.isSome_some, if_pos]
    rw [List.map_map]
    apply List.map_congr_left
    intro p _
    by_cases hp : p.1 = k
    · simp [hp]
    · simp [hp]

/-- The concatenated source blocks of the pairs belonging to one group
key. -/
def codeBlocks (k : String) (ps : List (String × MenuNode)) : String :=
  strConcat (ps.filterMap (fun p => if p.1 = k then some (getMenuList p.2) else none))

/-- The spec-side group value equals the source-side one because the
individual blocks coincide. -/
theorem specBlocks_eq_codeBlocks (k : String) (ps : List (String × MenuNode)) :
    specBlocks k ps = codeBlocks k ps := by
  simp only [specBlocks, codeBlocks, ← getMenuList_eq_vcardBlock]

/-- Lookup after folding a pair list: an existing value is extended by
the group's concatenated blocks; a fresh key appears exactly when the
pair list mentions it. -/
theorem applyPairs_lookup (k : String) :
    ∀ (ps : List (String × MenuNode)), (∀ p ∈ ps, inheritedRead p.1 = none) →
      ∀ (r : FlatRecord),
      (applyPairs r ps).lookup k =
        match r.lookup k with
        | some v => some (v ++ codeBlocks k ps)
        | none =>
          if (ps.map Prod.fst).contains k then some (codeBlocks k ps) else none := by
  intro ps
  induction ps with
  | nil =>
    intro _ r
    cases hr : r.lookup k with
    | none => simp [applyPairs_nil, hr, codeBlocks, strConcat]
    | some v => simp [applyPairs_nil, hr, codeBlocks, strConcat, String.append_empty]
  | cons p tail ih =>
    intro hps r
    obtain ⟨k1, n1⟩ := p
    have hhead : inheritedRead k1 = none := hps (k1, n1) (List.mem_cons_self _ _)
    have htail : ∀ p ∈ tail, inheritedRead p.1 = none :=
      fun p hp => hps p (List.mem_cons_of_mem _ hp)
    rw [applyPairs_cons, ih htail]
    by_cases hk : k1 = k
    · subst hk
      rw [lookup_recUpdate_self _ _ _ hhead]
      have hcb : codeBlocks k1 ((k1, n1) :: tail) = getMenuList n1 ++ codeBlocks k1 tail := by
        simp [codeBlocks, strConcat]
      cases hr : r.lookup k1 with
      | none => simp [hr, hcb, String.empty_append, String.append_assoc]
      | some v => simp [hr, hcb, String.append_assoc]
    · rw [lookup_recUpdate_ne r k1 k (getMenuList n1) (fun h2 => hk h2.symm)]
      have hcb : codeBlocks k ((k1, n1) :: tail) = codeBlocks k tail := by
        simp [codeBlocks, hk]
      cases hr : r.lookup k with
      | none =>
        have hcont : ((k1 :: List.map Prod.fst tail).contains k) =
            ((List.map Prod.fst tail).contains k) := by
          simp [List.mem_cons, Ne.symm hk]
        simp only [hr, hcb]
        rw [List.map_cons, hcont]
      | some v => simp [hr, hcb]

/-- Key order after folding a pair list: the existing keys, then the
fresh keys of the pair list in order of first appearance. -/
theorem applyPairs_map_fst :
    ∀ (ps : List (String × MenuNode)), (∀ p ∈ ps, inheritedRead p.1 = none) →
      ∀ (r : FlatRecord),
      (applyPairs r ps).map Prod.fst =
        r.map Prod.fst ++ firstOccKeys ((ps.map Prod.fst).filter
          (fun x => !(r.map Prod.fst).contains x)) := by
  intro ps
  induction ps with
  | nil => intro _ r; simp [applyPairs_nil, firstOccKeys]
  | cons p tail ih =>
    intro hps r
    obtain ⟨k1, n1⟩ := p
    have hhead : inheritedRead k1 = none := hps (k1, n1) (List.mem_cons_self _ _)
    have htail : ∀ p ∈ tail, inheritedRead p.1 = none :=
      fun p hp => hps p (List.mem_cons_of_mem _ hp)
    rw [applyPairs_cons, ih htail, recUpdate_map_fst _ _ _ hhead]
    by_cases hmem : (r.lookup k1).isSome
    · rw [if_pos hmem]
      have hk1 : (r.map Prod.fst).contains k1 = true := by
        by_contra h
        have h2 : k1 ∉ r.map Prod.fst := by simpa using h
        rw [← lookup_eq_none_iff_not_mem] at h2
        rw [h2] at hmem
        simp at hmem
      congr 1
      congr 1
      rw [List.map_cons, List.filter_cons, hk1]
      simp
    · rw [if_neg hmem]
      have hnone : r.lookup k1 = none := by
        cases hl : r.lookup k1 with
        | none => rfl
        | some v => rw [hl] at hmem; simp at hmem
      have hk1 : (r.map Prod.fst).contains k1 = false := by
        have h2 := (lookup_eq_none_iff_not_mem r k1).mp hnone
        simpa using h2
      have hfp : (tail.map Prod.fst).filter (fun x => !(r.map Prod.fst ++ [k1]).contains x)
          = ((tail.map Prod.fst).filter (fun x => !(r.map Prod.fst).contains x)).filter
              (fun x => x ≠ k1) := by
        rw [List.filter_filter]
        apply List.filter_congr
        intro x _
        by_cases hx : x = k1
        · by_cases hm : x ∈ r.map Prod.fst <;> simp [hx, hm]
        · by_cases hm : x ∈ r.map Prod.fst <;> simp [hx, hm]
      rw [hfp, List.map_cons, List.filter_cons]
      simp only [hk1, Bool.not_false, if_pos]
      rw [firstOccKeys]
      simp [List.append_assoc]

/-- Deduplication keeps exactly the members of the original list. -/
theorem mem_firstOccKeys : ∀ (l : List String) (x : String), x ∈ firstOccKeys l ↔ x ∈ l := by
  have main : ∀ (n : Nat) (l : List String), l.length ≤ n →
      ∀ x, (x ∈ firstOccKeys l ↔ x ∈ l) := by
    intro n
    induction n with
    | zero =>
      intro l hl x
      have h0 : l = [] := List.eq_nil_of_length_eq_zero (Nat.le_zero.mp hl)
      subst h0
      simp [firstOccKeys]
    | succ n ih =>
      intro l hl x
      cases l with
      | nil => simp [firstOccKeys]
      | cons k rest =>
        simp only [firstOccKeys, List.mem_cons]
        have hlen : (rest.filter (fun y => y ≠ k)).length ≤ n := by
          have hf := List.length_filter_le (fun y => decide (y ≠ k)) rest
          simp only [List.length_cons] at hl
          omega
        rw [ih _ hlen x]
        by_cases hx : x = k
        · simp [hx]
        · simp [hx, List.mem_filter]
  intro l x
  exact main l.length l (Nat.le_refl _) x

/-- Deduplication produces a list without duplicates. -/
theorem nodup_firstOccKeys : ∀ (l : List String), (firstOccKeys l).Nodup := by
  have main : ∀ (n : Nat) (l : List String), l.length ≤ n → (firstOccKeys l).Nodup := by
    intro n
    induction n with
    | zero =>
      intro l hl
      have h0 : l = [] := List.eq_nil_of_length_eq_zero (Nat.le_zero.mp hl)
      subst h0
      simp [firstOccKeys]
    | succ n ih =>
      intro l hl
      cases l with
      | nil => simp [firstOccKeys]
      | cons k rest =>
        simp only [firstOccKeys]
        rw [List.nodup_cons]
        have hlen : (rest.filter (fun y => y ≠ k)).length ≤ n := by
          have hf := List.length_filter_le (fun y => decide (y ≠ k)) rest
          simp only [List.length_cons] at hl
          omega
        refine ⟨?_, ih _ hlen⟩
        intro hmem
        rw [mem_firstOccKeys] at hmem
        have := (List.mem_filter.mp hmem).2
        simp at this
  intro l
  exact main l.length l (Nat.le_refl _)

/-- Lookup in a list that pairs every key with a function of it. -/
theorem lookup_map_key_fn (f : String → String) :
    ∀ (l : List String) (k : String),
      (l.map (fun x => (x, f x))).lookup k = if k ∈ l then some (f k) else none := by
  intro l
  induction l with
  | nil => simp
  | cons x rest ih =>
    intro k
    simp only [List.map_cons]
    rw [lookup_cons_key]
    by_cases hk : k = x
    · subst hk
      simp
    · simp [hk, ih k]

/-- Two association lists with the same key sequence, no duplicate keys
and the same lookups are equal. -/
theorem flat_record_ext : ∀ (r1 r2 : FlatRecord),
    r1.map Prod.fst = r2.map Prod.fst → (r1.map Prod.fst).Nodup →
    (∀ k, r1.lookup k = r2.lookup k) → r1 = r2 := by
  intro r1
  induction r1 with
  | nil =>
    intro r2 hkeys _ _
    cases r2 with
    | nil => rfl
    | cons q t2 => simp at hkeys
  | cons p t1 ih =>
    intro r2 hkeys hnd hlook
    obtain ⟨k1, v1⟩ := p
    cases r2 with
    | nil => simp at hkeys
    | cons q t2 =>
      obtain ⟨k2, v2⟩ := q
      simp only [List.map_cons] at hkeys
      injection hkeys with hk htail
      subst hk
      have hv : v1 = v2 := by
        have hl := hlook k1
        rw [lookup_cons_key, if_pos rfl, lookup_cons_key, if_pos rfl] at hl
        exact Option.some.inj hl
      subst hv
      simp only [List.map_cons] at hnd
      rw [List.nodup_cons] at hnd
      obtain ⟨hknotm, hndt⟩ := hnd
      have hlook2 : ∀ k, t1.lookup k = t2.lookup k := by
        intro k
        by_cases hkk : k = k1
        · subst hkk
          have h1 : t1.lookup k = none := (lookup_eq_none_iff_not_mem t1 k).mpr hknotm
          have h2 : t2.lookup k = none :=
            (lookup_eq_none_iff_not_mem t2 k).mpr (htail ▸ hknotm)
          rw [h1, h2]
        · have hl := hlook k
          rw [lookup_cons_key, if_neg hkk, lookup_cons_key, if_neg hkk] at hl
          exact hl
      rw [ih t2 htail hndt hlook2]

/-- A child grouped under the parent id "c". -/
def plainChild : MenuNode :=
  MenuNode.mk "c" "C" none [] none none none (some (some ""))

/-- A decorated parent whose id "p" is an ordinary key. -/
def plainParent : MenuNode :=
  MenuNode.mk "p" "P" none [plainChild] none none none (some (some ""))

/-- A decorated parent whose id is the inherited accessor name
"__proto__", so its child's record is grouped under that key. -/
def protoParent : MenuNode :=
  MenuNode.mk "__proto__" "P" none [plainChild] none none none (some (some ""))

/-- Counterexample to claim C3 as stated: for the decorated tree whose
single parent has id "__proto__" and one child, the child's block is
never concatenated under the parent's id — the compound assignment runs
the inherited "__proto__" accessor, which silently drops the string, so
the key is never created and the flattening differs from the
spec-described mapping, which has the child's block under "__proto__". -/
theorem flatten_proto_key_counterexample :
    flattenMenuOptions [protoParent] = [("#root", getMenuList protoParent)] ∧
    (flattenMenuOptions [protoParent]).lookup "__proto__" = none ∧
    (specFlattenMenuOptions [protoParent]).lookup "__proto__" =
      some "BEGIN:VCARD\nVERSION:4.0\nN:C\nNOTE:c\nEND:VCARD\n" ∧
    flattenMenuOptions [protoParent] ≠ specFlattenMenuOptions [protoParent] := by
  have hflat : flattenMenuOptions [protoParent] = [("#root", getMenuList protoParent)] := by
    simp +decide [flattenMenuOptions, flattenListInto, flattenNodeInto, protoParent, plainChild,
      recUpdate, inheritedRead, lookup_cons_key, List.lookup_nil]
  have hspec : specFlattenMenuOptions [protoParent] =
      [("#root", getMenuList protoParent), ("__proto__", getMenuList plainChild)] := by
    simp +decide [specFlattenMenuOptions, listPairs, nodePairs, protoParent, plainChild,
      firstOccKeys, specBlocks, strConcat, getMenuList_eq_vcardBlock, String.append_empty]
  refine ⟨hflat, ?_, ?_, ?_⟩
  · rw [hflat]
    decide
  · rw [hspec]
    decide
  · rw [hflat, hspec]
    decide

/-- Claim C3 as amended: for every decorated menu tree in which no
grouping key — the synthetic "#root" and the id of every node that has
children — is an inherited member name of Object.prototype, the
flattening is exactly the spec-described mapping: every top-level
node's vCard block concatenated under "#root", every child's block
concatenated under its parent's id, blocks within a key in depth-first
pre-order, each block of the exact literal shape with ORG present
exactly for a non-empty subtitle and PHOTO present exactly for a
non-empty stripped payload. -/
theorem flatten_refines_spec_plain_ids (options : List MenuNode)
    (hkeys : ∀ k ∈ (listPairs "#root" options).map Prod.fst, inheritedRead k = none) :
    flattenMenuOptions options = specFlattenMenuOptions options := by
  have hps : ∀ p ∈ listPairs "#root" options, inheritedRead p.1 = none :=
    fun p hp => hkeys p.1 (List.mem_map_of_mem Prod.fst hp)
  rw [show flattenMenuOptions options = applyPairs [] (listPairs "#root" options) from
    flattenListInto_eq_applyPairs options "#root" []]
  simp only [specFlattenMenuOptions]
  apply flat_record_ext
  · rw [applyPairs_map_fst (listPairs "#root" options) hps []]
    simp only [List.map_nil, List.nil_append]
    rw [show ((listPairs "#root" options).map Prod.fst).filter
        (fun x => !([] : List String).contains x) =
        (listPairs "#root" options).map Prod.fst from
      List.filter_eq_self.mpr (fun x _ => by simp)]
    rw [List.map_map]
    rw [show (Prod.fst ∘ fun k2 => (k2, specBlocks k2 (listPairs "#root" options))) = id from rfl,
      List.map_id]
  · rw [applyPairs_map_fst (listPairs "#root" options) hps []]
    simp only [List.map_nil, List.nil_append]
    exact nodup_firstOccKeys _
  · intro k
    rw [applyPairs_lookup k (listPairs "#root" options) hps []]
    rw [lookup_map_key_fn (fun k2 => specBlocks k2 (listPairs "#root" options))
      (firstOccKeys ((listPairs "#root" options).map Prod.fst)) k]
    simp only [List.lookup_nil]
    rw [specBlocks_eq_codeBlocks]
    by_cases hmem : k ∈ (listPairs "#root" options).map Prod.fst
    · rw [if_pos ((mem_firstOccKeys _ _).mpr hmem), if_pos (by simpa using hmem)]
    · rw [if_neg (fun h2 => hmem ((mem_firstOccKeys _ _).mp h2)),
        if_neg (by simpa using hmem)]

/-- Witness for the amended C3 at a concrete two-level tree with the
ordinary parent id "p". -/
theorem flatten_refines_spec_plain_ids_witness :
    flattenMenuOptions [plainParent] = specFlattenMenuOptions [plainParent] := by
  apply flatten_refines_spec_plain_ids
  intro k hk
  have hkeys : (listPairs "#root" [plainParent]).map Prod.fst = ["#root", "p"] := by
    simp [listPairs, nodePairs, plainParent, plainChild]
  rw [hkeys] at hk
  rcases List.mem_cons.mp hk with h1 | h1
  · subst h1
    decide
  · rcases List.mem_cons.mp h1 with h2 | h2
    · subst h2
      decide
    · cases h2
